import Mathlib

/-!
Verification of the extraction-and-load core of the brazilian_markets_etl_pipeline
repository (src/extract/stock_extractor.py, src/extract/bcb_extractor.py,
src/extract/utils.py, src/extract/config.py).

Shallow embedding conventions:
* Calendar dates are encoded as natural numbers counting days since 1970-01-01
  (the functions under study only compare dates and shift them by whole-day
  `timedelta`s, so day numbers are a faithful representation at day granularity).
* Wall-clock time for the rate limiter is encoded as rationals (seconds).
* A pandas DataFrame is abstracted by its column list together with the list of
  natural keys of its rows, which is exactly the data the load path inspects.
* The external APIs and the PostgreSQL store are modelled by explicit outcome
  parameters (a fetch function per entity, and an optional injected merge
  failure), so that every control path of the Python code is represented.
-/

set_option autoImplicit false

namespace BrazilianMarketsETL

/-! ### Batch boundary computation — `BCBExtractor._calculate_batches`
(src/extract/bcb_extractor.py lines 304-336).

The Python loop is
```
while current_start < end_date:
    batch_end = current_start + timedelta(days=batch_size_years * 365)
    if batch_end > end_date: batch_end = end_date
    batches.append((current_start, batch_end))
    current_start = batch_end + timedelta(days=1)
```
We embed it with an explicit fuel argument; `end_date - start_date` units of
fuel always suffice because every iteration advances `current_start` by at
least one day (`calcBatchesAux_fuel_irrel` below shows the result does not
depend on the fuel once it is sufficient). -/

/-- One fuel-indexed unfolding of the `while current_start < end_date` loop of
`_calculate_batches`. -/
def calcBatchesAux (w : Nat) : Nat → Nat → Nat → List (Nat × Nat)
  | 0, _, _ => []
  | fuel + 1, s, n =>
    if s < n then
      (s, min (s + w * 365) n) :: calcBatchesAux w fuel (min (s + w * 365) n + 1) n
    else []

/-- `BCBExtractor._calculate_batches(start_date, end_date, batch_size_years)`,
on day numbers. -/
def calculate_batches (start_date end_date batch_size_years : Nat) : List (Nat × Nat) :=
  calcBatchesAux batch_size_years (end_date - start_date) start_date end_date

theorem calcBatchesAux_nil (w fuel s n : Nat) (h : n ≤ s) :
    calcBatchesAux w fuel s n = [] := by
  cases fuel with
  | zero => rfl
  | succ f => simp [calcBatchesAux, Nat.not_lt.mpr h]

theorem calcBatchesAux_fuel_irrel (w : Nat) :
    ∀ fuel fuel' s n, n - s ≤ fuel → n - s ≤ fuel' →
      calcBatchesAux w fuel s n = calcBatchesAux w fuel' s n := by
  intro fuel
  induction fuel with
  | zero =>
    intro fuel' s n h h'
    have hns : n ≤ s := by omega
    rw [calcBatchesAux_nil w 0 s n hns, calcBatchesAux_nil w fuel' s n hns]
  | succ f ih =>
    intro fuel' s n h h'
    by_cases hsn : s < n
    · have hf' : ∃ g, fuel' = g + 1 := by
        cases fuel' with
        | zero => omega
        | succ g => exact ⟨g, rfl⟩
      obtain ⟨g, rfl⟩ := hf'
      have hmin : s ≤ min (s + w * 365) n :=
        le_min (Nat.le_add_right _ _) (Nat.le_of_lt hsn)
      simp only [calcBatchesAux, if_pos hsn]
      exact congrArg _ (ih g (min (s + w * 365) n + 1) n (by omega) (by omega))
    · have hns : n ≤ s := Nat.not_lt.mp hsn
      rw [calcBatchesAux_nil w (f + 1) s n hns, calcBatchesAux_nil w fuel' s n hns]

/-- Unfolding equation for `calculate_batches` in the case the loop runs. -/
theorem calculate_batches_cons (s n w : Nat) (h : s < n) :
    calculate_batches s n w =
      (s, min (s + w * 365) n) :: calculate_batches (min (s + w * 365) n + 1) n w := by
  have hmin : s ≤ min (s + w * 365) n := le_min (Nat.le_add_right _ _) (Nat.le_of_lt h)
  have h1 : ∃ f, n - s = f + 1 := ⟨n - s - 1, by omega⟩
  obtain ⟨f, hf⟩ := h1
  unfold calculate_batches
  rw [hf]
  simp only [calcBatchesAux, if_pos h]
  exact congrArg _ (calcBatchesAux_fuel_irrel w f (n - (min (s + w * 365) n + 1))
    (min (s + w * 365) n + 1) n (by omega) (by omega))

theorem calculate_batches_nil (s n w : Nat) (h : n ≤ s) :
    calculate_batches s n w = [] := by
  unfold calculate_batches
  exact calcBatchesAux_nil w (n - s) s n h

/-- Induction along the iterations of the `_calculate_batches` loop. -/
theorem batches_induction (w : Nat) (motive : Nat → Nat → Prop)
    (hnil : ∀ s n, n ≤ s → motive s n)
    (hcons : ∀ s n, s < n → motive (min (s + w * 365) n + 1) n → motive s n) :
    ∀ s n, motive s n := by
  have H : ∀ k s n, n - s ≤ k → motive s n := by
    intro k
    induction k with
    | zero => intro s n h; exact hnil s n (by omega)
    | succ k ih =>
      intro s n h
      by_cases hsn : s < n
      · have hmin : s ≤ min (s + w * 365) n :=
          le_min (Nat.le_add_right _ _) (Nat.le_of_lt hsn)
        exact hcons s n hsn (ih _ _ (by omega))
      · exact hnil s n (by omega)
  intro s n
  exact H (n - s) s n (le_refl _)

/-- Every produced window ends at `min (start + W*365) N`: it extends `W*365`
days or to `N`, whichever is earlier. -/
theorem calculate_batches_ends (w : Nat) :
    ∀ s n, ∀ p ∈ calculate_batches s n w, p.2 = min (p.1 + w * 365) n := by
  refine batches_induction w
    (fun s n => ∀ p ∈ calculate_batches s n w, p.2 = min (p.1 + w * 365) n) ?_ ?_
  · intro s n h p hp
    rw [calculate_batches_nil s n w h] at hp
    exact absurd hp (List.not_mem_nil p)
  · intro s n hsn ih p hp
    rw [calculate_batches_cons s n w hsn] at hp
    rcases List.mem_cons.mp hp with h | h
    · subst h; rfl
    · exact ih p h

/-- Every produced window starts strictly before `N` (the loop stops once a
start would reach `N`). -/
theorem calculate_batches_starts_lt (w : Nat) :
    ∀ s n, ∀ p ∈ calculate_batches s n w, p.1 < n := by
  refine batches_induction w (fun s n => ∀ p ∈ calculate_batches s n w, p.1 < n) ?_ ?_
  · intro s n h p hp
    rw [calculate_batches_nil s n w h] at hp
    exact absurd hp (List.not_mem_nil p)
  · intro s n hsn ih p hp
    rw [calculate_batches_cons s n w hsn] at hp
    rcases List.mem_cons.mp hp with h | h
    · subst h; exact hsn
    · exact ih p h

/-- Each consecutive window starts exactly one day after the previous window's
end: the windows are non-overlapping and gapless at day granularity. -/
theorem calculate_batches_chain (w : Nat) :
    ∀ s n, List.Chain' (fun p q : Nat × Nat => q.1 = p.2 + 1) (calculate_batches s n w) := by
  refine batches_induction w
    (fun s n => List.Chain' (fun p q : Nat × Nat => q.1 = p.2 + 1) (calculate_batches s n w))
    ?_ ?_
  · intro s n h; rw [calculate_batches_nil s n w h]; exact List.chain'_nil
  · intro s n hsn ih
    rw [calculate_batches_cons s n w hsn]
    refine List.chain'_cons'.mpr ⟨?_, ih⟩
    intro q hq
    by_cases h2 : min (s + w * 365) n + 1 < n
    · rw [calculate_batches_cons _ n w h2] at hq
      simp only [List.head?_cons, Option.mem_def, Option.some.injEq] at hq
      rw [← hq]
    · rw [calculate_batches_nil _ n w (Nat.not_lt.mp h2)] at hq
      simp at hq

/-- Exact description of the union of the windows: it is the interval from `S`
to `N`, except that the final day `N` is left out exactly when `N - S` is a
multiple of `W*365 + 1`. -/
theorem calculate_batches_cover (w : Nat) (hw : 1 ≤ w) :
    ∀ s n, s < n → ∀ d : Nat,
      ((∃ p ∈ calculate_batches s n w, p.1 ≤ d ∧ d ≤ p.2) ↔
        (s ≤ d ∧ d ≤ if (w * 365 + 1) ∣ (n - s) then n - 1 else n)) := by
  refine batches_induction w
    (fun s n => s < n → ∀ d : Nat,
      ((∃ p ∈ calculate_batches s n w, p.1 ≤ d ∧ d ≤ p.2) ↔
        (s ≤ d ∧ d ≤ if (w * 365 + 1) ∣ (n - s) then n - 1 else n))) ?_ ?_
  · intro s n h hsn; omega
  · intro s n hsn ih _ d
    rw [calculate_batches_cons s n w hsn]
    by_cases hA : n ≤ s + w * 365
    · rw [min_eq_right hA, calculate_batches_nil (n + 1) n w (by omega)]
      have hnd : ¬ (w * 365 + 1) ∣ (n - s) := by
        intro hdvd
        have := Nat.le_of_dvd (by omega) hdvd
        omega
      rw [if_neg hnd]
      simp only [List.mem_cons, List.not_mem_nil, or_false, exists_eq_left]
    · push_neg at hA
      rw [min_eq_left (Nat.le_of_lt hA)] at ih ⊢
      by_cases h2 : s + w * 365 + 1 < n
      · have hiff := ih h2 d
        simp only [List.mem_cons, exists_eq_or_imp] at hiff ⊢
        rw [hiff]
        have hd : (w * 365 + 1) ∣ (n - s) ↔ (w * 365 + 1) ∣ (n - (s + w * 365 + 1)) := by
          rw [show n - s = (n - (s + w * 365 + 1)) + (w * 365 + 1) from by omega]
          exact ⟨fun h => by simpa using Nat.dvd_sub' h (dvd_refl _),
            fun h => dvd_add h (dvd_refl _)⟩
        by_cases hdvd : (w * 365 + 1) ∣ (n - (s + w * 365 + 1))
        · rw [if_pos (hd.mpr hdvd), if_pos hdvd]
          omega
        · rw [if_neg (fun hc => hdvd (hd.mp hc)), if_neg hdvd]
          omega
      · have hn : n = s + w * 365 + 1 := by omega
        rw [calculate_batches_nil (s + w * 365 + 1) n w (by omega)]
        rw [if_pos ⟨1, by omega⟩]
        simp only [List.mem_cons, List.not_mem_nil, or_false, exists_eq_left]
        omega

/-- C2 counterexample: with S = day 0, N = day 366 and W = 1 the loop produces
the single window [0, 365] and then stops (the next start, 366, reaches N), so
day N = 366 is covered by no window: the union of the windows is [S, N - 1],
not [S, N], refuting the claimed exact coverage of [S, N]. -/
theorem calculate_batches_cover_cex :
    calculate_batches 0 366 1 = [(0, 365)] ∧
    ¬ (∀ d : Nat, (0 ≤ d ∧ d ≤ 366) ↔ ∃ p ∈ calculate_batches 0 366 1, p.1 ≤ d ∧ d ≤ p.2) := by
  constructor
  · rfl
  · intro h
    have h366 := (h 366).mp ⟨Nat.zero_le _, le_refl _⟩
    have : calculate_batches 0 366 1 = [(0, 365)] := rfl
    rw [this] at h366
    simp only [List.mem_cons, List.not_mem_nil, or_false, exists_eq_left] at h366
    omega

/-- C2 (amended): for all S < N and W ≥ 1, `_calculate_batches` returns windows
whose first window is [S, min (S + W*365) N]; every window ends at
`min (start + W*365) N` (it extends W*365 days or to N, whichever is earlier)
and so spans at most W*365 days; every window starts strictly before N (the
loop stops once a start would reach N); each subsequent window starts one day
after the previous window's end (non-overlapping and gapless at day
granularity); and the union of the windows is exactly [S, N], except that when
N - S is a multiple of W*365 + 1 the union is exactly [S, N - 1] (day N alone
is uncovered). -/
theorem calculate_batches_correct (S N W : Nat) (hW : 1 ≤ W) (hSN : S < N) :
    (calculate_batches S N W).head? = some (S, min (S + W * 365) N) ∧
    (∀ p ∈ calculate_batches S N W, p.2 = min (p.1 + W * 365) N) ∧
    (∀ p ∈ calculate_batches S N W, p.2 - p.1 ≤ W * 365) ∧
    (∀ p ∈ calculate_batches S N W, p.1 < N) ∧
    List.Chain' (fun p q : Nat × Nat => q.1 = p.2 + 1) (calculate_batches S N W) ∧
    (∀ d : Nat,
      (∃ p ∈ calculate_batches S N W, p.1 ≤ d ∧ d ≤ p.2) ↔
      (S ≤ d ∧ d ≤ if (W * 365 + 1) ∣ (N - S) then N - 1 else N)) := by
  refine ⟨?_, calculate_batches_ends W S N, ?_, calculate_batches_starts_lt W S N,
    calculate_batches_chain W S N, calculate_batches_cover W hW S N hSN⟩
  · rw [calculate_batches_cons S N W hSN]
    rfl
  · intro p hp
    have := calculate_batches_ends W S N p hp
    omega

/-- Concrete instantiation of `calculate_batches_correct` at S = 0, N = 800,
W = 1: the hypotheses hold and the theorem applies. -/
theorem calculate_batches_correct_witness :
    1 ≤ 1 ∧ 0 < 800 ∧
    ((calculate_batches 0 800 1).head? = some (0, min (0 + 1 * 365) 800) ∧
    (∀ p ∈ calculate_batches 0 800 1, p.2 = min (p.1 + 1 * 365) 800) ∧
    (∀ p ∈ calculate_batches 0 800 1, p.2 - p.1 ≤ 1 * 365) ∧
    (∀ p ∈ calculate_batches 0 800 1, p.1 < 800) ∧
    List.Chain' (fun p q : Nat × Nat => q.1 = p.2 + 1) (calculate_batches 0 800 1) ∧
    (∀ d : Nat,
      (∃ p ∈ calculate_batches 0 800 1, p.1 ≤ d ∧ d ≤ p.2) ↔
      (0 ≤ d ∧ d ≤ if (1 * 365 + 1) ∣ (800 - 0) then 800 - 1 else 800))) :=
  ⟨by decide, by decide, calculate_batches_correct 0 800 1 (by decide) (by decide)⟩

/-! ### Per-entity extraction loop — `extract_historical`
(src/extract/stock_extractor.py lines 90-158, src/extract/bcb_extractor.py
lines 131-195).

Each configured entity (ticker or indicator code) is fetched in turn inside a
`try`: a raised exception or an empty DataFrame appends the entity to the
failed list, a non-empty DataFrame is collected.  After the loop the call
raises iff nothing at all was collected, and otherwise returns the
concatenation (`pd.concat`) of the collected outputs in order. -/

/-- Outcome of one per-entity adapter call: either the call raised, or it
returned a (possibly empty) list of rows. -/
inductive FetchOutcome (ρ : Type) where
  | err : FetchOutcome ρ
  | ok (rows : List ρ) : FetchOutcome ρ
  deriving DecidableEq

/-- `true` when the entity yielded no rows: its call raised or returned an
empty DataFrame.  Both cases put the entity on the failed list. -/
def noRows {ρ : Type} : FetchOutcome ρ → Bool
  | FetchOutcome.err => true
  | FetchOutcome.ok [] => true
  | FetchOutcome.ok (_ :: _) => false

/-- The non-empty output of a successful entity, if any. -/
def goodRows {ρ : Type} : FetchOutcome ρ → Option (List ρ)
  | FetchOutcome.ok (r :: rs) => some (r :: rs)
  | _ => none

/-- The `for ticker in self.tickers` loop: returns (`all_data`, failed list),
both in iteration order. -/
def extractLoop {σ ρ : Type} (o : σ → FetchOutcome ρ) : List σ → List (List ρ) × List σ
  | [] => ([], [])
  | x :: xs =>
    let r := extractLoop o xs
    match o x with
    | FetchOutcome.err => (r.1, x :: r.2)
    | FetchOutcome.ok [] => (r.1, x :: r.2)
    | FetchOutcome.ok (y :: ys) => ((y :: ys) :: r.1, r.2)

/-- The body of `extract_historical` after date validation: run the per-entity
loop, raise (with the failed list) iff nothing was collected, otherwise return
the concatenation of the collected outputs. -/
def extract_core {σ ρ : Type} (o : σ → FetchOutcome ρ) (es : List σ) :
    Except (List σ) (List ρ) :=
  let r := extractLoop o es
  if r.1.isEmpty then Except.error r.2 else Except.ok r.1.flatten

theorem extractLoop_eq {σ ρ : Type} (o : σ → FetchOutcome ρ) (es : List σ) :
    extractLoop o es =
      (es.filterMap (fun x => goodRows (o x)), es.filter (fun x => noRows (o x))) := by
  induction es with
  | nil => rfl
  | cons x xs ih =>
    cases h : o x with
    | err => simp [extractLoop, h, ih, List.filterMap_cons, List.filter_cons, goodRows, noRows]
    | ok rows =>
      cases rows with
      | nil => simp [extractLoop, h, ih, List.filterMap_cons, List.filter_cons, goodRows, noRows]
      | cons y ys =>
        simp [extractLoop, h, ih, List.filterMap_cons, List.filter_cons, goodRows, noRows]

/-- C3: the per-entity extraction raises if and only if every entity yielded
no rows (raised or returned empty); the raised error carries the list of
failed entities, which in that case is every entity; and when at least one
entity succeeded with non-empty output the call returns the concatenation of
all successful per-entity outputs without raising, even when other entities
raised. -/
theorem extract_core_partial_failure {σ ρ : Type} (o : σ → FetchOutcome ρ) (es : List σ) :
    ((∃ fs, extract_core o es = Except.error fs) ↔ ∀ x ∈ es, noRows (o x) = true) ∧
    (∀ fs, extract_core o es = Except.error fs → fs = es) ∧
    ((∃ x ∈ es, noRows (o x) = false) →
      extract_core o es = Except.ok (es.filterMap (fun x => goodRows (o x))).flatten) := by
  have hgood : ∀ x, goodRows (o x) = none ↔ noRows (o x) = true := by
    intro x
    cases h : o x with
    | err => simp [goodRows, noRows]
    | ok rows => cases rows <;> simp [goodRows, noRows]
  have hloop := extractLoop_eq o es
  constructor
  · constructor
    · rintro ⟨fs, hfs⟩ x hx
      unfold extract_core at hfs
      rw [hloop] at hfs
      by_cases hemp : (es.filterMap (fun x => goodRows (o x))).isEmpty
      · rw [List.isEmpty_iff] at hemp
        have : goodRows (o x) = none := by
          cases hg : goodRows (o x) with
          | none => rfl
          | some v =>
            have hv : v ∈ es.filterMap (fun x => goodRows (o x)) :=
              List.mem_filterMap.mpr ⟨x, hx, hg⟩
            rw [hemp] at hv
            exact absurd hv (List.not_mem_nil v)
        exact (hgood x).mp this
      · simp [hemp] at hfs
    · intro hall
      refine ⟨es.filter (fun x => noRows (o x)), ?_⟩
      unfold extract_core
      rw [hloop]
      have hemp : es.filterMap (fun x => goodRows (o x)) = [] := by
        rw [List.filterMap_eq_nil_iff]
        intro x hx
        exact (hgood x).mpr (hall x hx)
      simp [hemp]
  constructor
  · intro fs hfs
    unfold extract_core at hfs
    rw [hloop] at hfs
    by_cases hemp : (es.filterMap (fun x => goodRows (o x))).isEmpty
    · simp only [hemp, if_true, Except.error.injEq] at hfs
      have hall : ∀ x ∈ es, noRows (o x) = true := by
        intro x hx
        rw [List.isEmpty_iff] at hemp
        refine (hgood x).mp ?_
        cases hg : goodRows (o x) with
        | none => rfl
        | some v =>
          have hv : v ∈ es.filterMap (fun x => goodRows (o x)) :=
            List.mem_filterMap.mpr ⟨x, hx, hg⟩
          rw [hemp] at hv
          exact absurd hv (List.not_mem_nil v)
      rw [← hfs, List.filter_eq_self.mpr hall]
    · simp [hemp] at hfs
  · rintro ⟨x, hx, hgx⟩
    unfold extract_core
    rw [hloop]
    have hne : ¬ (es.filterMap (fun x => goodRows (o x))).isEmpty := by
      rw [List.isEmpty_iff]
      intro hnil
      have : goodRows (o x) = none := by
        cases hg : goodRows (o x) with
        | none => rfl
        | some v =>
          have hv : v ∈ es.filterMap (fun x => goodRows (o x)) :=
            List.mem_filterMap.mpr ⟨x, hx, hg⟩
          rw [hnil] at hv
          exact absurd hv (List.not_mem_nil v)
      rw [(hgood x).mp this] at hgx
      cases hgx
    simp [hne]

/-- Entity outcomes used by the C3 witness: entity 1 raises, entities 0 and 2
return one row each. -/
def witnessOutcome : Nat → FetchOutcome Nat := fun x =>
  if x = 1 then FetchOutcome.err else FetchOutcome.ok [10 * x]

/-- Concrete instantiation of `extract_core_partial_failure`: of three
entities the middle one raises, and the call returns the rows of the other
two without raising. -/
theorem extract_core_partial_failure_witness :
    extract_core witnessOutcome [0, 1, 2] = Except.ok [0, 20] := by
  have h := (extract_core_partial_failure witnessOutcome [0, 1, 2]).2.2
    ⟨0, by decide, by decide⟩
  simpa using h

/-! ### Date-range validation — `validate_date_range`
(src/extract/utils.py lines 120-149).

Dates are day numbers (days since 1970-01-01).  The Python function raises
when start > end and when start precedes the 2000-01-01 sanity floor; an end
date beyond `datetime.now()` only logs a warning ("using today instead") and
the function still returns True — nothing replaces the end date. -/

/-- 2000-01-01 as a day number (days since 1970-01-01). -/
def jan1_2000 : Nat := 10957

inductive DateRangeErr where
  | startAfterEnd : DateRangeErr
  | startTooEarly : DateRangeErr
  deriving DecidableEq

/-- `validate_date_range(start_date, end_date)` evaluated at current time
`now`; `Except.ok b` returns True with `b` recording whether the
future-end-date warning was logged. -/
def validate_date_range (s e now : Nat) : Except DateRangeErr Bool :=
  if e < s then Except.error DateRangeErr.startAfterEnd
  else if s < jan1_2000 then Except.error DateRangeErr.startTooEarly
  else Except.ok (decide (now < e))

inductive ExtractErr (σ : Type) where
  | invalidRange (e : DateRangeErr) : ExtractErr σ
  | allFailed (failed : List σ) : ExtractErr σ
  deriving DecidableEq

/-- `extract_historical(start_date, end_date)`: validate the range, then run
the per-entity loop, passing the original `start_date` and `end_date` to each
per-entity adapter call. -/
def extract_historical {σ ρ : Type} (s e now : Nat)
    (fetch : σ → Nat → Nat → FetchOutcome ρ) (es : List σ) :
    Except (ExtractErr σ) (List ρ) :=
  match validate_date_range s e now with
  | Except.error de => Except.error (ExtractErr.invalidRange de)
  | Except.ok _ =>
    match extract_core (fun x => fetch x s e) es with
    | Except.error failed => Except.error (ExtractErr.allFailed failed)
    | Except.ok rows => Except.ok rows

instance exceptDecEq {ε α : Type} [DecidableEq ε] [DecidableEq α] :
    DecidableEq (Except ε α) := fun a b =>
  match a, b with
  | Except.error x, Except.error y =>
    if h : x = y then Decidable.isTrue (congrArg Except.error h)
    else Decidable.isFalse (fun hc => h (Except.error.inj hc))
  | Except.error _, Except.ok _ => Decidable.isFalse (fun hc => Except.noConfusion hc)
  | Except.ok _, Except.error _ => Decidable.isFalse (fun hc => Except.noConfusion hc)
  | Except.ok x, Except.ok y =>
    if h : x = y then Decidable.isTrue (congrArg Except.ok h)
    else Decidable.isFalse (fun hc => h (Except.ok.inj hc))

/-- Fetch function for the C8 counterexample: it is sensitive to the end date
it receives, returning row 1 when asked for the window ending at the future
day 20010 and row 2 otherwise. -/
def cexFetch : Nat → Nat → Nat → FetchOutcome Nat :=
  fun _ _ e => if e = 20010 then FetchOutcome.ok [1] else FetchOutcome.ok [2]

/-- C8 counterexample: with today = day 20000 and a requested end date of the
future day 20010, the call does not raise, but the end date is NOT treated as
"now": the per-entity fetch receives the original future end date 20010, so
the run differs from the run whose end date is 20000 (= now).  The effective
window is not truncated by the extractor. -/
theorem extract_historical_future_end_cex :
    validate_date_range 10957 20010 20000 = Except.ok true ∧
    extract_historical 10957 20010 20000 cexFetch [0] = Except.ok [1] ∧
    extract_historical 10957 20000 20000 cexFetch [0] = Except.ok [2] ∧
    extract_historical 10957 20010 20000 cexFetch [0] ≠
      extract_historical 10957 20000 20000 cexFetch [0] := by
  refine ⟨rfl, rfl, rfl, ?_⟩
  decide

/-- C8 (amended): an `extract_historical` call whose end date lies beyond the
current date does not raise — `validate_date_range` returns True and logs the
future-end warning — but the end date is passed unchanged to every per-entity
fetch (it is not replaced by "now"); and for every start date after the end
date, or before the 2000-01-01 sanity floor, the call raises before any I/O
(the result is a validation error no matter what the fetch function would
return). -/
theorem extract_historical_validation {σ ρ : Type} (s e now : Nat)
    (fetch : σ → Nat → Nat → FetchOutcome ρ) (es : List σ)
    (h1 : jan1_2000 ≤ s) (h2 : s ≤ e) (h3 : now < e) :
    validate_date_range s e now = Except.ok true ∧
    extract_historical s e now fetch es =
      (match extract_core (fun x => fetch x s e) es with
       | Except.error failed => Except.error (ExtractErr.allFailed failed)
       | Except.ok rows => Except.ok rows) ∧
    (∀ (s2 e2 : Nat) (fetch2 : σ → Nat → Nat → FetchOutcome ρ) (es2 : List σ),
      e2 < s2 ∨ s2 < jan1_2000 →
      extract_historical s2 e2 now fetch2 es2 =
        Except.error (ExtractErr.invalidRange
          (if e2 < s2 then DateRangeErr.startAfterEnd else DateRangeErr.startTooEarly))) := by
  have hval : validate_date_range s e now = Except.ok true := by
    unfold validate_date_range
    rw [if_neg (by omega), if_neg (by omega)]
    simp [h3]
  refine ⟨hval, ?_, ?_⟩
  · unfold extract_historical
    rw [hval]
  · intro s2 e2 fetch2 es2 hbad
    unfold extract_historical validate_date_range
    by_cases hse : e2 < s2
    · rw [if_pos hse, if_pos hse]
    · rw [if_neg hse, if_neg hse, if_pos (by omega)]

/-- Concrete instantiation of `extract_historical_validation` at start = day
10957 (2000-01-01), end = future day 20010, now = day 20000. -/
theorem extract_historical_validation_witness :
    jan1_2000 ≤ 10957 ∧ 10957 ≤ 20010 ∧ 20000 < 20010 ∧
    validate_date_range 10957 20010 20000 = Except.ok true :=
  ⟨by decide, by decide, by decide,
    (extract_historical_validation 10957 20010 20000 cexFetch [0]
      (by decide) (by decide) (by decide)).1⟩

/-! ### Idempotent load — `load_to_database`
(src/extract/stock_extractor.py lines 237-321, src/extract/bcb_extractor.py
lines 478-556) and `validate_dataframe` (src/extract/utils.py lines 152-173).

A DataFrame is abstracted by its column list and the list of natural keys of
its rows ((ticker, date) for stocks, (indicator_code, date) for indicators).
`load_to_database` validates the frame, reads the initial row count, stamps
the caller's DataFrame in place with `loaded_at` and `source` columns, writes
a staging table, merges it into the permanent table with
`ON CONFLICT (key) DO NOTHING`, drops the staging table inside the same
`engine.begin()` block, and returns final count - initial count; on any store
error during staging/merge the `except` branch drops the staging table and
re-raises.  The store is modelled as the list of natural keys of the
permanent table, and a store failure during the merge is modelled by the
injected parameter `mergeFailure`. -/

inductive ValidationErr where
  | emptyFrame : ValidationErr
  | missingColumns (missing : List String) : ValidationErr
  deriving DecidableEq

inductive LoadErr (ε : Type) where
  | invalid (v : ValidationErr) : LoadErr ε
  | storeFailure (e : ε) : LoadErr ε
  deriving DecidableEq

/-- A pandas DataFrame, abstracted to its columns and its rows' natural keys. -/
structure Frame (κ : Type) where
  cols : List String
  keys : List κ
  deriving DecidableEq

/-- Required-column lists of `StockExtractor.load_to_database` (lines 260-269)
and `BCBExtractor.load_to_database` (lines 497-504). -/
def stockRequiredColumns : List String :=
  ["ticker", "date", "open_price", "high_price", "low_price", "close_price",
   "volume", "adj_close"]

def bcbRequiredColumns : List String :=
  ["indicator_code", "indicator_name", "date", "value", "unit", "frequency"]

/-- `validate_dataframe(df, required_columns)`: empty check first, then the
missing-columns check. -/
def validate_dataframe {κ : Type} (f : Frame κ) (required : List String) :
    Option ValidationErr :=
  if f.keys.isEmpty then some ValidationErr.emptyFrame
  else
    let missing := required.filter fun c => decide (c ∉ f.cols)
    if missing.isEmpty then none else some (ValidationErr.missingColumns missing)

/-- Adding a DataFrame column in place: `df["c"] = ...` appends the column
when absent and overwrites it (leaving the column list unchanged) when
present. -/
def addColumn (cols : List String) (c : String) : List String :=
  if c ∈ cols then cols else cols ++ [c]

/-- The in-place stamping `df["loaded_at"] = datetime.now()`;
`df["source"] = ...` performed on the caller's DataFrame before staging. -/
def stampFrame {κ : Type} (f : Frame κ) : Frame κ :=
  ⟨addColumn (addColumn f.cols "loaded_at") "source", f.keys⟩

/-- The conflict-skip merge `INSERT ... SELECT ... ON CONFLICT (key) DO
NOTHING`: each staged row is inserted unless its natural key is already
present (including keys inserted earlier in the same statement). -/
def mergeRows {κ : Type} [DecidableEq κ] (store : List κ) : List κ → List κ
  | [] => store
  | k :: ks => if k ∈ store then mergeRows store ks else mergeRows (store ++ [k]) ks

/-- Everything observable about one `load_to_database` call. -/
structure LoadResult (κ ε : Type) where
  /-- the permanent table after the call -/
  store : List κ
  /-- the caller's DataFrame after the call (it is mutated in place) -/
  frame : Frame κ
  /-- whether a staging table was created during the call -/
  stagingCreated : Bool
  /-- whether a staging table still exists after the call -/
  stagingRemaining : Bool
  /-- the returned newly-inserted count, or the raised error -/
  outcome : Except (LoadErr ε) Nat
  deriving DecidableEq

/-- `load_to_database(df)`: validate, stamp the caller's frame in place,
stage, merge with conflict skip, drop staging, return the exact increase of
the permanent row count; when the store raises during staging/merge the
except branch drops the staging table and re-raises the original error. -/
def load_to_database {κ ε : Type} [DecidableEq κ] (f : Frame κ) (required : List String)
    (store : List κ) (mergeFailure : Option ε) : LoadResult κ ε :=
  match validate_dataframe f required with
  | some err => ⟨store, f, false, false, Except.error (LoadErr.invalid err)⟩
  | none =>
    let f' := stampFrame f
    match mergeFailure with
    | some e => ⟨store, f', true, false, Except.error (LoadErr.storeFailure e)⟩
    | none =>
      let st' := mergeRows store f'.keys
      ⟨st', f', true, false, Except.ok (st'.length - store.length)⟩

theorem mem_addColumn_of_mem {cols : List String} {c d : String} (h : c ∈ cols) :
    c ∈ addColumn cols d := by
  unfold addColumn
  split
  · exact h
  · exact List.mem_append_left _ h

theorem mem_addColumn_self (cols : List String) (c : String) : c ∈ addColumn cols c := by
  unfold addColumn
  split
  · assumption
  · exact List.mem_append_right _ (List.mem_singleton.mpr rfl)

theorem mergeRows_superset {κ : Type} [DecidableEq κ] (ks : List κ) :
    ∀ store : List κ, ∀ k ∈ store, k ∈ mergeRows store ks := by
  induction ks with
  | nil => intro store k hk; exact hk
  | cons a as ih =>
    intro store k hk
    unfold mergeRows
    split
    · exact ih store k hk
    · exact ih (store ++ [a]) k (List.mem_append_left _ hk)

theorem mem_mergeRows_of_mem {κ : Type} [DecidableEq κ] (ks : List κ) :
    ∀ store : List κ, ∀ k ∈ ks, k ∈ mergeRows store ks := by
  induction ks with
  | nil => intro store k hk; exact absurd hk (List.not_mem_nil k)
  | cons a as ih =>
    intro store k hk
    rcases List.mem_cons.mp hk with h | h
    · subst h
      unfold mergeRows
      split
      · exact mergeRows_superset as store k (by assumption)
      · exact mergeRows_superset as (store ++ [k])
          k (List.mem_append_right _ (List.mem_singleton.mpr rfl))
    · unfold mergeRows
      split
      · exact ih store k h
      · exact ih (store ++ [a]) k h

theorem mergeRows_eq_self {κ : Type} [DecidableEq κ] (ks : List κ) :
    ∀ store : List κ, (∀ k ∈ ks, k ∈ store) → mergeRows store ks = store := by
  induction ks with
  | nil => intro store _; rfl
  | cons a as ih =>
    intro store h
    unfold mergeRows
    rw [if_pos (h a (List.mem_cons_self a as))]
    exact ih store (fun k hk => h k (List.mem_cons_of_mem a hk))

theorem stampFrame_keys {κ : Type} (f : Frame κ) : (stampFrame f).keys = f.keys := rfl

/-- When the first call succeeded, `validate_dataframe` accepted the frame. -/
theorem load_ok_validate {κ ε : Type} [DecidableEq κ] (f : Frame κ) (required : List String)
    (store : List κ) (n : Nat)
    (h : (load_to_database f required store (none : Option ε)).outcome = Except.ok n) :
    validate_dataframe f required = none := by
  cases hv : validate_dataframe f required with
  | none => rfl
  | some err =>
    unfold load_to_database at h
    rw [hv] at h
    cases h

/-- C1: when a call to `load_to_database` with record set R succeeds with some
newly-inserted count N, immediately repeating the call with the identical
input (the same, by-now-stamped, DataFrame) against the resulting store
succeeds with newly-inserted count 0 and leaves the store unchanged, so the
store's final row count is the same after one call as after two identical
calls. -/
theorem load_to_database_idempotent {κ ε : Type} [DecidableEq κ] (f : Frame κ)
    (required : List String) (store : List κ) (n : Nat)
    (h : (load_to_database f required store (none : Option ε)).outcome = Except.ok n) :
    ((load_to_database (load_to_database f required store (none : Option ε)).frame required
        (load_to_database f required store (none : Option ε)).store
        (none : Option ε)).outcome = Except.ok 0) ∧
    ((load_to_database (load_to_database f required store (none : Option ε)).frame required
        (load_to_database f required store (none : Option ε)).store
        (none : Option ε)).store =
      (load_to_database f required store (none : Option ε)).store) := by
  have hv : validate_dataframe f required = none := load_ok_validate f required store n h
  have hkeys : ¬ f.keys.isEmpty := by
    intro hemp
    unfold validate_dataframe at hv
    rw [if_pos hemp] at hv
    cases hv
  have hmiss : (required.filter fun c => decide (c ∉ f.cols)).isEmpty := by
    by_contra hne
    unfold validate_dataframe at hv
    rw [if_neg hkeys] at hv
    simp only [if_neg hne] at hv
    cases hv
  have hcols : ∀ c ∈ required, c ∈ f.cols := by
    intro c hc
    by_contra hnc
    have : c ∈ required.filter fun c => decide (c ∉ f.cols) :=
      List.mem_filter.mpr ⟨hc, by simpa using hnc⟩
    rw [List.isEmpty_iff] at hmiss
    rw [hmiss] at this
    exact absurd this (List.not_mem_nil c)
  have hr1 : load_to_database f required store (none : Option ε) =
      ⟨mergeRows store f.keys, stampFrame f, true, false,
        Except.ok ((mergeRows store f.keys).length - store.length)⟩ := by
    simp only [load_to_database, hv, stampFrame_keys]
  have hv2 : validate_dataframe (stampFrame f) required = none := by
    unfold validate_dataframe stampFrame
    rw [if_neg hkeys]
    have : (required.filter fun c =>
        decide (c ∉ addColumn (addColumn f.cols "loaded_at") "source")).isEmpty := by
      rw [List.isEmpty_iff, List.filter_eq_nil_iff]
      intro c hc
      simp only [decide_not, Bool.not_eq_true', decide_eq_false_iff_not, not_not]
      exact mem_addColumn_of_mem (mem_addColumn_of_mem (hcols c hc))
    simp only [if_pos this]
  have hmerge2 : mergeRows (mergeRows store f.keys) f.keys = mergeRows store f.keys :=
    mergeRows_eq_self _ _ (fun k hk => mem_mergeRows_of_mem f.keys store k hk)
  have hr2 : load_to_database (stampFrame f) required (mergeRows store f.keys)
      (none : Option ε) =
      ⟨mergeRows store f.keys, stampFrame (stampFrame f), true, false, Except.ok 0⟩ := by
    simp only [load_to_database, hv2, stampFrame_keys, hmerge2, Nat.sub_self]
  rw [hr1]
  show (load_to_database (stampFrame f) required (mergeRows store f.keys)
      (none : Option ε)).outcome = Except.ok 0 ∧
    (load_to_database (stampFrame f) required (mergeRows store f.keys)
      (none : Option ε)).store = mergeRows store f.keys
  rw [hr2]
  exact ⟨rfl, rfl⟩

/-- The fixed store-key type used in witnesses: a (ticker, date) pair. -/
def witnessFrame : Frame (String × Nat) :=
  ⟨stockRequiredColumns, [("PETR4.SA", 20000), ("VALE3.SA", 20000)]⟩

/-- Concrete instantiation of `load_to_database_idempotent`: loading two fresh
price rows into an empty store inserts 2, and the identical repeated call
inserts 0 and leaves the store unchanged. -/
theorem load_to_database_idempotent_witness :
    (load_to_database witnessFrame stockRequiredColumns ([] : List (String × Nat))
        (none : Option Unit)).outcome = Except.ok 2 ∧
    ((load_to_database (load_to_database witnessFrame stockRequiredColumns []
        (none : Option Unit)).frame stockRequiredColumns
        (load_to_database witnessFrame stockRequiredColumns [] (none : Option Unit)).store
        (none : Option Unit)).outcome = Except.ok 0) :=
  ⟨by decide,
    (load_to_database_idempotent witnessFrame stockRequiredColumns [] 2 (by decide)).1⟩

/-- C6: every `load_to_database` call that reaches the staging step (i.e.
whose input passes validation) removes the staging table on both the success
path and the failure path, and when the merge into the permanent table errors
the staging table is dropped and the original store error is re-raised to the
caller, never swallowed. -/
theorem load_to_database_staging_cleanup {κ ε : Type} [DecidableEq κ] (f : Frame κ)
    (required : List String) (store : List κ) (mergeFailure : Option ε)
    (h : validate_dataframe f required = none) :
    (load_to_database f required store mergeFailure).stagingCreated = true ∧
    (load_to_database f required store mergeFailure).stagingRemaining = false ∧
    (∀ e, mergeFailure = some e →
      (load_to_database f required store mergeFailure).outcome =
        Except.error (LoadErr.storeFailure e)) := by
  cases mergeFailure with
  | none =>
    refine ⟨?_, ?_, ?_⟩
    · simp only [load_to_database, h]
    · simp only [load_to_database, h]
    · intro e he; cases he
  | some e0 =>
    refine ⟨?_, ?_, ?_⟩
    · simp only [load_to_database, h]
    · simp only [load_to_database, h]
    · intro e he
      have : e0 = e := Option.some.inj he
      subst this
      simp only [load_to_database, h]

/-- Concrete instantiation of `load_to_database_staging_cleanup` with an
injected store failure during the merge. -/
theorem load_to_database_staging_cleanup_witness :
    validate_dataframe witnessFrame stockRequiredColumns = none ∧
    (load_to_database witnessFrame stockRequiredColumns ([] : List (String × Nat))
      (some 7)).stagingRemaining = false ∧
    (load_to_database witnessFrame stockRequiredColumns ([] : List (String × Nat))
      (some 7)).outcome = Except.error (LoadErr.storeFailure 7) :=
  ⟨by decide,
    (load_to_database_staging_cleanup witnessFrame stockRequiredColumns [] (some 7)
      (by decide)).2.1,
    (load_to_database_staging_cleanup witnessFrame stockRequiredColumns [] (some 7)
      (by decide)).2.2 7 rfl⟩

/-- C7: for every input DataFrame that is empty or missing at least one
required column, `load_to_database` raises immediately before any write is
attempted: no staging table is created, the permanent store is unchanged, and
the caller's DataFrame is untouched. -/
theorem load_to_database_rejects_invalid {κ ε : Type} [DecidableEq κ] (f : Frame κ)
    (required : List String) (store : List κ) (mergeFailure : Option ε)
    (h : f.keys = [] ∨ ∃ c ∈ required, c ∉ f.cols) :
    (∃ v, (load_to_database f required store mergeFailure).outcome =
      Except.error (LoadErr.invalid v)) ∧
    (load_to_database f required store mergeFailure).stagingCreated = false ∧
    (load_to_database f required store mergeFailure).store = store ∧
    (load_to_database f required store mergeFailure).frame = f := by
  have hval : ∃ v, validate_dataframe f required = some v := by
    by_cases hemp : f.keys.isEmpty
    · exact ⟨ValidationErr.emptyFrame, by simp only [validate_dataframe, if_pos hemp]⟩
    · have hne : ∃ c ∈ required, c ∉ f.cols := by
        rcases h with h | h
        · exact absurd (by rw [h]; rfl) hemp
        · exact h
      obtain ⟨c, hc, hnc⟩ := hne
      refine ⟨ValidationErr.missingColumns
        (required.filter fun c => decide (c ∉ f.cols)), ?_⟩
      have hmem : c ∈ required.filter fun c => decide (c ∉ f.cols) :=
        List.mem_filter.mpr ⟨hc, by simpa using hnc⟩
      have hnonemp : ¬ (required.filter fun c => decide (c ∉ f.cols)).isEmpty := by
        rw [List.isEmpty_iff]
        intro hcon
        rw [hcon] at hmem
        exact absurd hmem (List.not_mem_nil c)
      simp only [validate_dataframe, if_neg hemp, if_neg hnonemp]
  obtain ⟨v, hv⟩ := hval
  refine ⟨⟨v, ?_⟩, ?_, ?_, ?_⟩ <;> simp only [load_to_database, hv]

/-- A non-empty price DataFrame missing the `close_price` column (and the
other OHLCV columns). -/
def frameMissingClose : Frame (String × Nat) :=
  ⟨["ticker", "date"], [("PETR4.SA", 20000)]⟩

/-- Concrete instantiation of `load_to_database_rejects_invalid`: loading a
non-empty price DataFrame missing `close_price` raises and creates no staging
table. -/
theorem load_to_database_rejects_invalid_witness :
    frameMissingClose.keys ≠ [] ∧ "close_price" ∈ stockRequiredColumns ∧
    "close_price" ∉ frameMissingClose.cols ∧
    (load_to_database frameMissingClose stockRequiredColumns ([] : List (String × Nat))
      (none : Option Unit)).stagingCreated = false :=
  ⟨by decide, by decide, by decide,
    (load_to_database_rejects_invalid frameMissingClose stockRequiredColumns []
      (none : Option Unit)
      (Or.inr ⟨"close_price", by decide, by decide⟩)).2.1⟩

/-- C9 counterexample: a non-empty DataFrame that is missing a required column
is rejected by `validate_dataframe` before the stamping lines run, so the
caller's DataFrame is NOT mutated: it gains neither a `loaded_at` nor a
`source` column, refuting the claim for this non-empty input. -/
theorem load_to_database_mutation_cex :
    frameMissingClose.keys ≠ [] ∧
    (load_to_database frameMissingClose stockRequiredColumns ([] : List (String × Nat))
      (none : Option Unit)).frame = frameMissingClose ∧
    "loaded_at" ∉ (load_to_database frameMissingClose stockRequiredColumns
      ([] : List (String × Nat)) (none : Option Unit)).frame.cols ∧
    "source" ∉ (load_to_database frameMissingClose stockRequiredColumns
      ([] : List (String × Nat)) (none : Option Unit)).frame.cols := by
  refine ⟨by decide, rfl, by decide, by decide⟩

/-- C9 (amended): for every non-empty DataFrame that contains the required
columns, `load_to_database` mutates the caller's DataFrame in place — whether
the call succeeds or raises during the merge, after the call the input frame
has gained a `loaded_at` column and a `source` column (appended when absent),
while its rows and all its other columns are unchanged. -/
theorem load_to_database_mutates_frame {κ ε : Type} [DecidableEq κ] (f : Frame κ)
    (required : List String) (store : List κ) (mergeFailure : Option ε)
    (hne : ¬ f.keys.isEmpty) (hcols : ∀ c ∈ required, c ∈ f.cols) :
    (load_to_database f required store mergeFailure).frame.cols =
      addColumn (addColumn f.cols "loaded_at") "source" ∧
    (load_to_database f required store mergeFailure).frame.keys = f.keys ∧
    "loaded_at" ∈ (load_to_database f required store mergeFailure).frame.cols ∧
    "source" ∈ (load_to_database f required store mergeFailure).frame.cols := by
  have hv : validate_dataframe f required = none := by
    have hmiss : (required.filter fun c => decide (c ∉ f.cols)).isEmpty := by
      rw [List.isEmpty_iff, List.filter_eq_nil_iff]
      intro c hc
      simpa using hcols c hc
    simp only [validate_dataframe, if_neg hne, if_pos hmiss]
  have hfr : (load_to_database f required store mergeFailure).frame = stampFrame f := by
    cases mergeFailure with
    | none => simp only [load_to_database, hv]
    | some e => simp only [load_to_database, hv]
  rw [hfr]
  refine ⟨rfl, rfl, ?_, ?_⟩
  · exact mem_addColumn_of_mem (mem_addColumn_self f.cols "loaded_at")
  · exact mem_addColumn_self _ "source"

/-- Concrete instantiation of `load_to_database_mutates_frame`: after a
successful load the caller's frame has gained the two stamp columns. -/
theorem load_to_database_mutates_frame_witness :
    ¬ witnessFrame.keys.isEmpty ∧
    "loaded_at" ∈ (load_to_database witnessFrame stockRequiredColumns
      ([] : List (String × Nat)) (none : Option Unit)).frame.cols :=
  ⟨by decide,
    (load_to_database_mutates_frame witnessFrame stockRequiredColumns []
      (none : Option Unit) (by decide) (by decide)).2.2.1⟩

/-! ### Batched historical backfill — `extract_full_historical_batched` and
`extract_single_indicator_full_history`
(src/extract/bcb_extractor.py lines 217-302 and 338-397) with the indicator
catalog of `ExtractionConfig` (src/extract/config.py lines 75-99).

Neither backfill entry point calls `validate_date_range`: each indicator's
configured earliest-available date is parsed, split into windows by
`_calculate_batches`, and every window is fetched inside a `try` whose
`except` logs and skips the failed batch.  Dates below are day numbers since
1970-01-01. -/

/-- `ExtractionConfig.bcb_indicators` (codes and display names, in source
order). -/
def bcb_indicators : List (String × String) :=
  [("432", "SELIC"), ("433", "IPCA"), ("1", "USD_BRL"), ("12", "IPCA_12M"),
   ("24369", "CDI_Daily"), ("189", "IGP_M"), ("7832", "USD_BRL_PTAX")]

/-- `ExtractionConfig.bcb_indicator_start_dates`, as day numbers:
432 ↦ 1999-03-05, 1 ↦ 1984-11-28, 433 ↦ 1980-01-01, 12 ↦ 1986-03-06,
24369 ↦ 2012-03-01, 189 ↦ 1989-06-01, 7832 ↦ 1987-02-01. -/
def bcb_indicator_start_dates : List (String × Nat) :=
  [("432", 10655), ("1", 5445), ("433", 3652), ("12", 5908),
   ("24369", 15400), ("189", 7091), ("7832", 6240)]

inductive BackfillErr where
  | unknownCode : BackfillErr
  | noStartDate : BackfillErr
  deriving DecidableEq

/-- The per-batch loop shared by both backfill entry points: every window is
fetched; a raised fetch error or an empty result skips the batch; a non-empty
result is loaded (conflict-skip merge into the store) when
`save_after_each_batch` is set, otherwise its row count is accumulated
directly.  Returns (total rows counted, final store). -/
def runBatches {κ : Type} [DecidableEq κ] (fetch : Nat → Nat → FetchOutcome κ)
    (save : Bool) : List (Nat × Nat) → List κ → Nat → Nat × List κ
  | [], store, total => (total, store)
  | (s, e) :: rest, store, total =>
    match fetch s e with
    | FetchOutcome.err => runBatches fetch save rest store total
    | FetchOutcome.ok [] => runBatches fetch save rest store total
    | FetchOutcome.ok (k :: ks) =>
      if save then
        runBatches fetch save rest (mergeRows store (k :: ks))
          (total + ((mergeRows store (k :: ks)).length - store.length))
      else
        runBatches fetch save rest store (total + (k :: ks).length)

/-- `extract_single_indicator_full_history(code, batch_size_years)` at current
day `now`: rejects an unknown code, rejects a code with no configured start
date, and otherwise fetches (and loads) every window of
`_calculate_batches(start, now, w)` with no date-range validation.  The
result also records the list of windows fetched. -/
def extract_single_indicator_full_history {κ : Type} [DecidableEq κ] (code : String)
    (now w : Nat) (fetch : Nat → Nat → FetchOutcome κ) (store : List κ) :
    Except BackfillErr (Nat × List κ × List (Nat × Nat)) :=
  if (bcb_indicators.lookup code).isNone then Except.error BackfillErr.unknownCode
  else
    match bcb_indicator_start_dates.lookup code with
    | none => Except.error BackfillErr.noStartDate
    | some d =>
      let bs := calculate_batches d now w
      let r := runBatches fetch true bs store 0
      Except.ok (r.1, r.2, bs)

/-- The `for code, name in self.indicators.items()` loop of
`extract_full_historical_batched`: indicators without a configured start date
are skipped with a warning; for the others the batch windows are computed and
processed, threading the store.  Returns (total rows, final store, log of all
(code, window) pairs fetched). -/
def backfillLoop {κ : Type} [DecidableEq κ] (now w : Nat) (save : Bool)
    (fetch : String → Nat → Nat → FetchOutcome κ) :
    List (String × String) → List κ → Nat × List κ × List (String × Nat × Nat)
  | [], store => (0, store, [])
  | (code, _) :: rest, store =>
    match bcb_indicator_start_dates.lookup code with
    | none => backfillLoop now w save fetch rest store
    | some d =>
      let r := runBatches (fetch code) save (calculate_batches d now w) store 0
      let rr := backfillLoop now w save fetch rest r.2
      (r.1 + rr.1, rr.2.1,
        (calculate_batches d now w).map (fun p => (code, p)) ++ rr.2.2)

/-- `extract_full_historical_batched(batch_size_years, save_after_each_batch)`
at current day `now`: processes every configured indicator with no date-range
validation and never raises. -/
def extract_full_historical_batched {κ : Type} [DecidableEq κ] (now w : Nat)
    (save : Bool) (fetch : String → Nat → Nat → FetchOutcome κ) (store : List κ) :
    Nat × List κ × List (String × Nat × Nat) :=
  backfillLoop now w save fetch bcb_indicators store

/-- Any window of any configured indicator appears in the fetch log of the
batched backfill loop. -/
theorem backfillLoop_mem {κ : Type} [DecidableEq κ] (now w : Nat) (save : Bool)
    (fetch : String → Nat → Nat → FetchOutcome κ) :
    ∀ (inds : List (String × String)) (store : List κ) (code nm : String) (d : Nat)
      (p : Nat × Nat),
      (code, nm) ∈ inds → bcb_indicator_start_dates.lookup code = some d →
      p ∈ calculate_batches d now w →
      (code, p) ∈ (backfillLoop now w save fetch inds store).2.2 := by
  intro inds
  induction inds with
  | nil =>
    intro store code nm d p hin _ _
    exact absurd hin (List.not_mem_nil _)
  | cons cm rest ih =>
    intro store code nm d p hin hl hp
    obtain ⟨c, m⟩ := cm
    rcases List.mem_cons.mp hin with h | h
    · have hc : c = code := (Prod.mk.injEq _ _ _ _).mp h.symm |>.1
      subst hc
      simp only [backfillLoop, hl]
      exact List.mem_append_left _ (List.mem_map.mpr ⟨p, hp, rfl⟩)
    · cases hl2 : bcb_indicator_start_dates.lookup c with
      | none =>
        simp only [backfillLoop, hl2]
        exact ih _ code nm d p h hl hp
      | some d2 =>
        simp only [backfillLoop, hl2]
        exact List.mem_append_right _ (ih _ code nm d p h hl hp)

/-- C10: the batched backfill performs no date-range validation.  Indicator
"433" (IPCA) has configured start 1980-01-01 (day 3652), which precedes the
2000-01-01 sanity floor; `extract_single_indicator_full_history` for "433"
nevertheless succeeds and fetches the windows of
`_calculate_batches(1980-01-01, now, w)`, whose first window starts at day
3652; the full batched run likewise fetches that window for "433"; whereas
`extract_historical` called with the same start date raises the
start-too-early validation error before any per-entity fetch, whatever the
fetch function and entity list. -/
theorem backfill_skips_date_validation {κ : Type} [DecidableEq κ] (now w : Nat)
    (hnow : 3652 < now) (fetch : Nat → Nat → FetchOutcome κ) (store : List κ)
    (gfetch : String → Nat → Nat → FetchOutcome κ) (gstore : List κ) :
    (∃ total st, extract_single_indicator_full_history "433" now w fetch store =
      Except.ok (total, st, calculate_batches 3652 now w)) ∧
    (calculate_batches 3652 now w).head? = some (3652, min (3652 + w * 365) now) ∧
    3652 < jan1_2000 ∧
    ("433", 3652, min (3652 + w * 365) now) ∈
      (extract_full_historical_batched now w true gfetch gstore).2.2 ∧
    (∀ (fetch2 : Nat → Nat → Nat → FetchOutcome Nat) (es : List Nat) (e now2 : Nat),
      3652 ≤ e →
      extract_historical 3652 e now2 fetch2 es =
        Except.error (ExtractErr.invalidRange DateRangeErr.startTooEarly)) := by
  have hcons := calculate_batches_cons 3652 now w hnow
  refine ⟨?_, ?_, by decide, ?_, ?_⟩
  · refine ⟨(runBatches fetch true (calculate_batches 3652 now w) store 0).1,
      (runBatches fetch true (calculate_batches 3652 now w) store 0).2, ?_⟩
    rfl
  · rw [hcons]; rfl
  · have hmem : (3652, min (3652 + w * 365) now) ∈ calculate_batches 3652 now w := by
      rw [hcons]; exact List.mem_cons_self _ _
    exact backfillLoop_mem now w true gfetch bcb_indicators gstore "433" "IPCA" 3652
      (3652, min (3652 + w * 365) now) (by decide) rfl hmem
  · intro fetch2 es e now2 he
    unfold extract_historical validate_date_range
    rw [if_neg (by omega), if_pos (by decide)]

/-- Concrete instantiation of `backfill_skips_date_validation` at
now = day 20000: the pre-floor start day 3652 is fetched by the backfill while
`extract_historical` rejects it. -/
theorem backfill_skips_date_validation_witness :
    3652 < 20000 ∧
    (calculate_batches 3652 20000 5).head? = some (3652, min (3652 + 5 * 365) 20000) ∧
    extract_historical 3652 20000 20000 cexFetch [0] =
      Except.error (ExtractErr.invalidRange DateRangeErr.startTooEarly) :=
  ⟨by decide,
    (backfill_skips_date_validation 20000 5 (by decide)
      (fun _ _ => FetchOutcome.ok ([] : List Nat)) []
      (fun _ _ _ => FetchOutcome.ok ([] : List Nat)) []).2.1,
    (backfill_skips_date_validation 20000 5 (by decide)
      (fun _ _ => FetchOutcome.ok ([] : List Nat)) []
      (fun _ _ _ => FetchOutcome.ok ([] : List Nat)) []).2.2.2.2 cexFetch [0] 20000 20000
      (by decide)⟩

/-! ### Retry with exponential backoff — `with_retry`
(src/extract/utils.py lines 74-117), applied to
`BCBExtractor._extract_single_indicator` (src/extract/bcb_extractor.py lines
399-450).

Modelled from the spec: the retry loop itself is driven by the external
`tenacity` library, which is not part of this repository; `with_retry` only
configures it with `stop=stop_after_attempt(max_attempts)` and
`retry=retry_if_exception_type((requests.exceptions.RequestException,
ConnectionError))`.  Following the spec's contract (§4.2) for the missing
engine: each attempt either returns a value or raises an error of a transient
(connection/timeout) or non-transient kind; a non-transient error propagates
immediately; a transient error is retried until `max_attempts` attempts have
been used, after which the last error is re-raised.  The waiting between
attempts does not affect which outcome is produced and is not modelled. -/

inductive ErrKind where
  | transient : ErrKind
  | permanent : ErrKind
  deriving DecidableEq

/-- An error raised by one attempt: its kind decides retryability, `code`
identifies the particular error. -/
structure CallErr where
  kind : ErrKind
  code : Nat
  deriving DecidableEq

/-- Behaviour of the `i`-th invocation of the wrapped function. -/
inductive AttemptResult (α : Type) where
  | ok (v : α) : AttemptResult α
  | raised (e : CallErr) : AttemptResult α
  deriving DecidableEq

/-- The retry loop at attempt number `n` with `remaining` further attempts
allowed after this one. -/
def retryGo {α : Type} (attempts : Nat → AttemptResult α) :
    Nat → Nat → Except CallErr α
  | n, 0 =>
    match attempts n with
    | AttemptResult.ok v => Except.ok v
    | AttemptResult.raised e => Except.error e
  | n, r + 1 =>
    match attempts n with
    | AttemptResult.ok v => Except.ok v
    | AttemptResult.raised e =>
      match e.kind with
      | ErrKind.permanent => Except.error e
      | ErrKind.transient => retryGo attempts (n + 1) r

/-- `with_retry(max_attempts)` applied to a call whose `i`-th invocation
behaves as `attempts i` (attempts are numbered from 1). -/
def with_retry {α : Type} (maxAttempts : Nat) (attempts : Nat → AttemptResult α) :
    Except CallErr α :=
  retryGo attempts 1 (maxAttempts - 1)

theorem retryGo_ok {α : Type} (attempts : Nat → AttemptResult α) (n r : Nat) (v : α)
    (h : attempts n = AttemptResult.ok v) :
    retryGo attempts n r = Except.ok v := by
  cases r <;> simp only [retryGo, h]

theorem retryGo_permanent {α : Type} (attempts : Nat → AttemptResult α) (n r : Nat)
    (e : CallErr) (h : attempts n = AttemptResult.raised e)
    (hk : e.kind = ErrKind.permanent) :
    retryGo attempts n r = Except.error e := by
  cases r <;> simp only [retryGo, h, hk]

theorem retryGo_exhaust {α : Type} (attempts : Nat → AttemptResult α) (n : Nat)
    (e : CallErr) (h : attempts n = AttemptResult.raised e) :
    retryGo attempts n 0 = Except.error e := by
  simp only [retryGo, h]

/-- If every attempt strictly before `j` raised a transient error, the retry
loop reaches attempt `j`. -/
theorem retryGo_reaches {α : Type} (attempts : Nat → AttemptResult α) :
    ∀ (r n j : Nat), n ≤ j → j ≤ n + r →
      (∀ i, n ≤ i → i < j → ∃ e, attempts i = AttemptResult.raised e ∧
        e.kind = ErrKind.transient) →
      retryGo attempts n r = retryGo attempts j (n + r - j) := by
  intro r
  induction r with
  | zero =>
    intro n j h1 h2 _
    have : j = n := by omega
    subst this
    rw [Nat.add_sub_cancel_left]
  | succ r ih =>
    intro n j h1 h2 hall
    by_cases hj : j = n
    · subst hj; rw [Nat.add_sub_cancel_left]
    · have hn : n < j := by omega
      obtain ⟨e, he, hek⟩ := hall n (le_refl n) hn
      have step : retryGo attempts n (r + 1) = retryGo attempts (n + 1) r := by
        simp only [retryGo, he, hek]
      rw [step, ih (n + 1) j (by omega) (by omega)
        (fun i hi1 hi2 => hall i (by omega) hi2)]
      have : n + 1 + r - j = n + (r + 1) - j := by omega
      rw [this]

/-- C4: for a function wrapped by `with_retry(max_attempts)` whose attempts
behave as `attempts`, (1) a non-transient error raised on the first attempt
propagates to the caller immediately, with no retry: the result is that error
for every behaviour of the later attempts; (2) an error is retried only when
it is transient: when every attempt before `j` raised a transient error, the
loop reaches attempt `j ≤ max_attempts` and returns its value if it succeeds;
(3) when all `max_attempts` attempts raise transient errors the last error is
re-raised. -/
theorem with_retry_spec {α : Type} (m : Nat) (hm : 1 ≤ m)
    (attempts : Nat → AttemptResult α) :
    (∀ e, attempts 1 = AttemptResult.raised e → e.kind = ErrKind.permanent →
      with_retry m attempts = Except.error e ∧
      (∀ attempts2 : Nat → AttemptResult α, attempts2 1 = attempts 1 →
        with_retry m attempts2 = Except.error e)) ∧
    (∀ j v, 1 ≤ j → j ≤ m →
      (∀ i, 1 ≤ i → i < j → ∃ e, attempts i = AttemptResult.raised e ∧
        e.kind = ErrKind.transient) →
      attempts j = AttemptResult.ok v → with_retry m attempts = Except.ok v) ∧
    (∀ e, (∀ i, 1 ≤ i → i < m → ∃ e2, attempts i = AttemptResult.raised e2 ∧
        e2.kind = ErrKind.transient) →
      attempts m = AttemptResult.raised e → e.kind = ErrKind.transient →
      with_retry m attempts = Except.error e) := by
  refine ⟨?_, ?_, ?_⟩
  · intro e he hk
    constructor
    · exact retryGo_permanent attempts 1 (m - 1) e he hk
    · intro attempts2 h2
      exact retryGo_permanent attempts2 1 (m - 1) e (by rw [h2, he]) hk
  · intro j v hj1 hjm hall hok
    unfold with_retry
    rw [retryGo_reaches attempts (m - 1) 1 j hj1 (by omega) hall]
    exact retryGo_ok attempts j _ v hok
  · intro e hall hm2 hk
    unfold with_retry
    rw [retryGo_reaches attempts (m - 1) 1 m hm (by omega) hall]
    have : 1 + (m - 1) - m = 0 := by omega
    rw [this]
    exact retryGo_exhaust attempts m e hm2

/-- Attempt behaviour for the C4 witness: every attempt raises a transient
error carrying its attempt number. -/
def witnessAttempts : Nat → AttemptResult Nat := fun i =>
  AttemptResult.raised ⟨ErrKind.transient, i⟩

/-- Concrete instantiation of `with_retry_spec` at `max_attempts = 3` with all
attempts raising transient errors: the error of the last (third) attempt is
re-raised. -/
theorem with_retry_spec_witness :
    with_retry 3 witnessAttempts = Except.error ⟨ErrKind.transient, 3⟩ :=
  (with_retry_spec 3 (by decide) witnessAttempts).2.2 ⟨ErrKind.transient, 3⟩
    (fun i h1 h2 => ⟨⟨ErrKind.transient, i⟩, rfl, rfl⟩) rfl rfl

/-! ### Rate limiter — `rate_limit`
(src/extract/utils.py lines 33-71).

Wall-clock seconds are rationals.  Each decorated function owns one
`last_call_time` cell (a closure variable created per decoration).  On a call
arriving at time `t`: if `last_call_time` is set and `t - last_call_time <
delay_seconds` the wrapper sleeps until `last_call_time + delay_seconds`;
then — crucially — `last_call_time = time.time()` is recorded at the moment
the wrapped function is *invoked*, before `func(...)` runs, so the recorded
instant is the start of the call, not its return.  A sequential trace is a
list of (arrival time, call duration) pairs; the run maps it to the list of
(invocation time, return time) pairs, arrivals being chosen by the caller. -/

/-- The instant at which the wrapped function is invoked for a call arriving
at `t`, given the recorded `last_call_time`. -/
def nextInvoke (delay : ℚ) (last : Option ℚ) (t : ℚ) : ℚ :=
  match last with
  | none => t
  | some l => if t - l < delay then l + delay else t

/-- Run a sequence of calls through one `rate_limit(delay)` wrapper: each
input is (arrival time, duration of the wrapped call); each output is
(invocation time, return time).  `last` is the wrapper's `last_call_time`. -/
def runRateLimited (delay : ℚ) : Option ℚ → List (ℚ × ℚ) → List (ℚ × ℚ)
  | _, [] => []
  | last, (t, d) :: rest =>
    (nextInvoke delay last t, nextInvoke delay last t + d) ::
      runRateLimited delay (some (nextInvoke delay last t)) rest

/-- Two functions each decorated by their own `rate_limit` wrapper: calls are
tagged (`true` = first function); each wrapper consults and updates only its
own `last_call_time`. -/
def runTwoRateLimited (delayF delayG : ℚ) :
    Option ℚ → Option ℚ → List (Bool × ℚ × ℚ) → List (Bool × ℚ × ℚ)
  | _, _, [] => []
  | lf, lg, (tag, t, d) :: rest =>
    if tag then
      (true, nextInvoke delayF lf t, nextInvoke delayF lf t + d) ::
        runTwoRateLimited delayF delayG (some (nextInvoke delayF lf t)) lg rest
    else
      (false, nextInvoke delayG lg t, nextInvoke delayG lg t + d) ::
        runTwoRateLimited delayF delayG lf (some (nextInvoke delayG lg t)) rest

/-- Project the calls of the first function out of a tagged trace. -/
def firstCalls (xs : List (Bool × ℚ × ℚ)) : List (ℚ × ℚ) :=
  xs.filterMap (fun x => if x.1 then some x.2 else none)

/-- C5 counterexample: delay 1, and two back-to-back sequential calls — the
first arrives at time 0 and its wrapped call takes 2 seconds, returning at
time 2; the second arrives right at that return, time 2.  Since
`last_call_time` recorded the first *invocation* (time 0) and 2 - 0 ≥ 1, the
wrapper does not sleep: the second invocation happens at time 2, i.e. 0
seconds — not ≥ 1 second — after the previous wrapped call returned. -/
theorem rate_limit_spacing_cex :
    runRateLimited 1 none [(0, 2), (2, 0)] = [(0, 2), (2, 2)] ∧
    ¬ ((2 : ℚ) + 1 ≤ 2) := by
  constructor
  · simp only [runRateLimited, nextInvoke]
    norm_num
  · norm_num

/-- The next invocation can never precede `last + delay`. -/
theorem nextInvoke_ge (delay : ℚ) (l t : ℚ) :
    l + delay ≤ nextInvoke delay (some l) t := by
  show l + delay ≤ if t - l < delay then l + delay else t
  split
  · exact le_refl _
  · rename_i h
    linarith [not_lt.mp h]

/-- C5 (amended): for every `delay ≥ 0` and every sequence of sequential
calls, (1) consecutive invocations of one wrapped function are spaced at
least `delay` apart, measured from the instant the *previous wrapped call was
invoked* (not from when it returned); (2) the first call is never delayed:
it is invoked at its arrival time; (3) the spacing state is tracked per
distinct wrapped function, not globally: in an interleaved trace of two
wrapped functions, the calls of the first behave exactly as if its calls had
been run through its own wrapper alone. -/
theorem rate_limit_spacing (delay : ℚ) (hd : 0 ≤ delay) (calls : List (ℚ × ℚ)) :
    List.Chain' (fun p q : ℚ × ℚ => p.1 + delay ≤ q.1) (runRateLimited delay none calls) ∧
    (∀ t d rest, calls = (t, d) :: rest →
      (runRateLimited delay none calls).head? = some (t, t + d)) ∧
    (∀ (delayG : ℚ) (tagged : List (Bool × ℚ × ℚ)),
      firstCalls (runTwoRateLimited delay delayG none none tagged) =
        runRateLimited delay none (firstCalls tagged)) := by
  have chainAux : ∀ (cs : List (ℚ × ℚ)) (last : Option ℚ),
      List.Chain' (fun p q : ℚ × ℚ => p.1 + delay ≤ q.1) (runRateLimited delay last cs) := by
    intro cs
    induction cs with
    | nil => intro last; exact List.chain'_nil
    | cons c rest ih =>
      intro last
      obtain ⟨t, d⟩ := c
      simp only [runRateLimited]
      refine List.chain'_cons'.mpr ⟨?_, ih _⟩
      intro q hq
      cases rest with
      | nil => simp [runRateLimited] at hq
      | cons c2 rest2 =>
        obtain ⟨t2, d2⟩ := c2
        simp only [runRateLimited, List.head?_cons, Option.mem_def,
          Option.some.injEq] at hq
        rw [← hq]
        exact nextInvoke_ge delay _ t2
  have projAux : ∀ (delayG : ℚ) (tagged : List (Bool × ℚ × ℚ)) (lf lg : Option ℚ),
      firstCalls (runTwoRateLimited delay delayG lf lg tagged) =
        runRateLimited delay lf (firstCalls tagged) := by
    intro delayG tagged
    induction tagged with
    | nil => intro lf lg; rfl
    | cons c rest ih =>
      intro lf lg
      obtain ⟨tag, t, d⟩ := c
      cases tag with
      | true =>
        simp only [runTwoRateLimited, if_pos rfl, firstCalls, List.filterMap_cons]
        simp only [firstCalls] at ih
        simp [runRateLimited, ih]
      | false =>
        simp only [runTwoRateLimited, firstCalls, List.filterMap_cons]
        simp only [firstCalls] at ih
        simp [ih]
  refine ⟨chainAux calls none, ?_, fun delayG tagged => projAux delayG tagged none none⟩
  intro t d rest hc
  subst hc
  simp only [runRateLimited, List.head?_cons, nextInvoke]

/-- Concrete instantiation of `rate_limit_spacing` at delay 1 on the
counterexample trace: in the corrected reading the two invocation instants 0
and 2 are indeed at least 1 second apart. -/
theorem rate_limit_spacing_witness :
    (0 : ℚ) ≤ 1 ∧
    List.Chain' (fun p q : ℚ × ℚ => p.1 + 1 ≤ q.1)
      (runRateLimited 1 none [(0, 2), (2, 0)]) :=
  ⟨by norm_num, (rate_limit_spacing 1 (by norm_num) [(0, 2), (2, 0)]).1⟩

end BrazilianMarketsETL
